import Mathlib

/-!
Verification of the framew0rk portfolio system against its specification.

The development shallowly embeds the parts of the repository the checked
properties talk about:

* `PortfolioTracker` — the Solidity position ledger
  (`src/contracts/PortfolioTracker.sol`): positions, the owner-indexed
  storage, `addPosition` / `removePosition` / `updatePosition` /
  `getPosition` / `getAllPositions` / `getPositionCount`, with Solidity 0.8
  checked-arithmetic revert semantics made explicit through `Except`.
* `Blockchain` — `BlockchainService.getTokenInfo` from
  `src/server/lib/blockchain.ts`: provider lookup, the token-metadata cache
  and the three concurrent reads, modelled over an explicit chain
  environment.
* `Graph` — `GraphService.formatTokenAmount` from the same file: the
  BigInt division/remainder string assembly, together with the exact
  rational value that string denotes.
* `ClientBinding` — `ContractService.addPosition` from
  `src/services/contractService.ts`: the `parseEther` conversions and the
  ABI argument encoding of the contract call, in the argument order the
  source actually uses.
* `PortfolioHook` — `calculateRiskScore` from the portfolio React hook.

Machine integers are `Nat`/`Int` with explicit `2 ^ 256` bounds where the
EVM or the ABI enforces them; JavaScript `number` results that matter are
modelled as the exact rationals the integer arithmetic denotes, and the
binary floating-point range of `parseFloat` is modelled as the set of
dyadic rationals.
-/

namespace PortfolioTracker

/-- Ethereum addresses, abstracted to naturals; only equality is used. -/
abbrev Addr := Nat

deriving instance DecidableEq for Except

/-- Largest value representable in a `uint256` storage slot. -/
def UINT256_MAX : Nat := 2 ^ 256 - 1

/-- The `Position` struct of `PortfolioTracker.sol`. -/
structure Position where
  token : Addr
  amount : Nat
  entryPrice : Nat
  timestamp : Nat
  protocol : String
  active : Bool
deriving Repr, DecidableEq

/-- Zero-initialized `Position`, the content of a freshly allocated
Solidity memory array slot. -/
def defaultPosition : Position :=
  { token := 0, amount := 0, entryPrice := 0, timestamp := 0, protocol := "", active := false }

/-- Contract storage: `mapping(address => Position[]) userPositions` and
`mapping(address => uint256) positionCount`. -/
structure TrackerState where
  userPositions : Addr → List Position
  positionCount : Addr → Nat

/-- Revert reasons of the contract: the two `require` messages of
`validPositionId` / `getPosition`, the Solidity 0.8 checked-arithmetic
panic, and the array-bounds panic of the `getAllPositions` fill loop. -/
inductive ContractError where
  | invalidPositionId
  | positionInactive
  | arithmeticPanic
  | indexOutOfBounds
deriving Repr, DecidableEq

/-- Freshly deployed contract: both mappings are empty. -/
def initState : TrackerState :=
  { userPositions := fun _ => [], positionCount := fun _ => 0 }

/-- The `validPositionId` modifier: requires the id to be in range of the
sender's array and the position there to be active, in that order. -/
def validPositionId (s : TrackerState) (sender : Addr) (pid : Nat) : Except ContractError Unit :=
  if pid < (s.userPositions sender).length then
    if ((s.userPositions sender).getD pid defaultPosition).active then .ok ()
    else .error .positionInactive
  else .error .invalidPositionId

/-- `addPosition(_token, _amount, _entryPrice, _protocol)`: pushes a new
active position onto the sender's array, stamps the block timestamp and
increments `positionCount` (a checked `uint256` increment), returning the
new position id `length - 1`. -/
def addPosition (s : TrackerState) (sender : Addr) (token : Addr) (amount entryPrice : Nat)
    (protocol : String) (timestamp : Nat) : Except ContractError (TrackerState × Nat) :=
  if s.positionCount sender + 1 ≤ UINT256_MAX then
    let newPosition : Position :=
      { token := token, amount := amount, entryPrice := entryPrice,
        timestamp := timestamp, protocol := protocol, active := true }
    let ps := s.userPositions sender ++ [newPosition]
    .ok ({ userPositions := Function.update s.userPositions sender ps,
           positionCount := Function.update s.positionCount sender (s.positionCount sender + 1) },
         ps.length - 1)
  else .error .arithmeticPanic

/-- `removePosition(_positionId)`: guarded by `validPositionId`; marks the
position inactive (soft delete, all other fields kept) and decrements
`positionCount` (a checked `uint256` decrement). -/
def removePosition (s : TrackerState) (sender : Addr) (pid : Nat) :
    Except ContractError TrackerState :=
  match validPositionId s sender pid with
  | .error e => .error e
  | .ok _ =>
    if s.positionCount sender = 0 then .error .arithmeticPanic
    else
      let ps := s.userPositions sender
      let p := ps.getD pid defaultPosition
      .ok { userPositions := Function.update s.userPositions sender
              (ps.set pid { p with active := false }),
            positionCount := Function.update s.positionCount sender (s.positionCount sender - 1) }

/-- `updatePosition(_positionId, _newAmount, _newEntryPrice)`: guarded by
`validPositionId`; overwrites only `amount` and `entryPrice`. -/
def updatePosition (s : TrackerState) (sender : Addr) (pid newAmount newEntryPrice : Nat) :
    Except ContractError TrackerState :=
  match validPositionId s sender pid with
  | .error e => .error e
  | .ok _ =>
    let ps := s.userPositions sender
    let p := ps.getD pid defaultPosition
    let updated := ps.set pid { p with amount := newAmount, entryPrice := newEntryPrice }
    .ok { s with userPositions := Function.update s.userPositions sender updated }

/-- `getPosition(_user, _positionId)`: requires only that the id is in
range of the user's array; returns the stored record as-is. -/
def getPosition (s : TrackerState) (user : Addr) (pid : Nat) : Except ContractError Position :=
  if pid < (s.userPositions user).length then
    .ok ((s.userPositions user).getD pid defaultPosition)
  else .error .invalidPositionId

/-- The fill loop of `getAllPositions`: walks the stored array and writes
each active position into the next free slot of the pre-allocated result
array, reverting if the write index would leave the array. -/
def fillActive (arr : List Position) (src : List Position) (currentIndex : Nat) :
    Except ContractError (List Position) :=
  match src with
  | [] => .ok arr
  | p :: rest =>
    if p.active then
      if currentIndex < arr.length then fillActive (arr.set currentIndex p) rest (currentIndex + 1)
      else .error .indexOutOfBounds
    else fillActive arr rest currentIndex

/-- `getAllPositions(_user)`: allocates `new Position[](positionCount[_user])`
(zero-initialized) and fills it with the active positions in storage
order. -/
def getAllPositions (s : TrackerState) (user : Addr) : Except ContractError (List Position) :=
  fillActive (List.replicate (s.positionCount user) defaultPosition) (s.userPositions user) 0

/-- `getPositionCount(_user)`: returns the stored counter. -/
def getPositionCount (s : TrackerState) (user : Addr) : Nat := s.positionCount user

/-- A ledger transaction: one call to one of the three mutating entry
points, tagged with its sender (`msg.sender`). -/
inductive Op where
  | add (sender : Addr) (token : Addr) (amount entryPrice : Nat)
      (protocol : String) (timestamp : Nat)
  | remove (sender : Addr) (pid : Nat)
  | update (sender : Addr) (pid newAmount newEntryPrice : Nat)

/-- Transaction semantics: a reverted call leaves storage unchanged. -/
def execOp (s : TrackerState) : Op → TrackerState
  | .add sender token amount entryPrice protocol timestamp =>
      match addPosition s sender token amount entryPrice protocol timestamp with
      | .ok r => r.1
      | .error _ => s
  | .remove sender pid =>
      match removePosition s sender pid with
      | .ok s2 => s2
      | .error _ => s
  | .update sender pid na ne =>
      match updatePosition s sender pid na ne with
      | .ok s2 => s2
      | .error _ => s

/-- Execution of a sequence of ledger transactions. -/
def execOps (s : TrackerState) (ops : List Op) : TrackerState := ops.foldl execOp s

/-- The active positions of an owner, in storage (append) order. -/
def activeList (s : TrackerState) (u : Addr) : List Position :=
  (s.userPositions u).filter (fun p => p.active)

/-- Ledger invariant: every stored counter equals the number of active
positions of that owner. -/
def Inv (s : TrackerState) : Prop :=
  ∀ u, s.positionCount u = (activeList s u).length

/-- The `active` flag stored at one ledger index of one owner, if the
index has ever been assigned. -/
def activeFlagAt (s : TrackerState) (u : Addr) (i : Nat) : Option Bool :=
  ((s.userPositions u)[i]?).map (fun p => p.active)

/-- Witness state for the removePosition checks: owner 7 holds exactly one
active position (the end-to-end scenario of the specification). -/
def sC7 : TrackerState :=
  execOps initState [.add 7 1 1000000000000000000 2000000000000000000000 "Aave" 0]

/-- The single position stored in `sC7`. -/
def pC7 : Position :=
  { token := 1, amount := 1000000000000000000, entryPrice := 2000000000000000000000,
    timestamp := 0, protocol := "Aave", active := true }

/-- Witness state for the updatePosition frame checks: owner 3 holds two
active positions. -/
def sC9 : TrackerState :=
  execOps initState [.add 3 5 10 20 "Uniswap" 2, .add 3 6 30 40 "Aave" 3]

/-- The first position stored in `sC9`. -/
def pC9 : Position :=
  { token := 5, amount := 10, entryPrice := 20, timestamp := 2,
    protocol := "Uniswap", active := true }

/-- Witness state for the getPosition checks: owner 9 added one position
and then soft-deleted it. -/
def sC10 : TrackerState :=
  execOps initState [.add 9 4 11 22 "Curve" 5, .remove 9 0]

/-- The soft-deleted record stored at index 0 of `sC10`. -/
def pC10 : Position :=
  { token := 4, amount := 11, entryPrice := 22, timestamp := 5,
    protocol := "Curve", active := false }

end PortfolioTracker

namespace Blockchain

/-- The `TokenInfo` interface of `src/server/lib/blockchain.ts`. -/
structure TokenInfo where
  address : String
  symbol : String
  decimals : Nat
  totalSupply : String
deriving Repr, DecidableEq

/-- The chain environment behind a `BlockchainService`: which networks got
a provider in the constructor (an RPC URL was configured), and the results
of the three ERC-20 reads issued on a cache miss. Each read either returns
a value or rejects with an error message. -/
structure ChainEnv where
  hasProvider : String → Bool
  readSymbol : String → String → Except String String
  readDecimals : String → String → Except String Nat
  readTotalSupply : String → String → Except String Nat

/-- Errors thrown by `getTokenInfo`: `Provider not found for network: ...`
when no provider is configured (the NetworkUnavailable class), and
`Failed to fetch token info: ...` when any of the three reads rejects (the
TokenReadError class). -/
inductive BlockchainError where
  | providerNotFound (network : String)
  | tokenReadError (msg : String)
deriving Repr, DecidableEq

/-- The `tokenCache` map, as an association list keyed by the
`network:address` string. -/
abbrev TokenCache := List (String × TokenInfo)

/-- The cache key `network:tokenAddress` built by `getTokenInfo`. -/
def cacheKey (network tokenAddress : String) : String :=
  network ++ ":" ++ tokenAddress

/-- `BlockchainService.getTokenInfo`: cache-first; on a miss it requires a
provider for the network, issues the three reads (symbol, decimals,
totalSupply), and only when all three succeed builds the `TokenInfo`,
stores it in the cache and returns it; if any read rejects it throws a
token-read error without touching the cache. The result is the pair of
the call outcome and the cache after the call. -/
def getTokenInfo (env : ChainEnv) (cache : TokenCache) (tokenAddress : String)
    (network : String) : Except BlockchainError TokenInfo × TokenCache :=
  match cache.lookup (cacheKey network tokenAddress) with
  | some cachedToken => (.ok cachedToken, cache)
  | none =>
    if env.hasProvider network then
      match env.readSymbol network tokenAddress, env.readDecimals network tokenAddress,
          env.readTotalSupply network tokenAddress with
      | .ok symbol, .ok decimals, .ok totalSupply =>
        let tokenInfo : TokenInfo :=
          { address := tokenAddress, symbol := symbol, decimals := decimals,
            totalSupply := Nat.repr totalSupply }
        (.ok tokenInfo, (cacheKey network tokenAddress, tokenInfo) :: cache)
      | .error e, _, _ => (.error (.tokenReadError e), cache)
      | _, .error e, _ => (.error (.tokenReadError e), cache)
      | _, _, .error e => (.error (.tokenReadError e), cache)
    else (.error (.providerNotFound network), cache)

/-- Witness environment: only `ethereum` has a provider and all three
reads succeed. -/
def envC5 : ChainEnv :=
  { hasProvider := fun network => network == "ethereum",
    readSymbol := fun _ _ => .ok "USDC",
    readDecimals := fun _ _ => .ok 6,
    readTotalSupply := fun _ _ => .ok 1000000 }

/-- Witness environment in which the decimals read rejects. -/
def envC5bad : ChainEnv :=
  { hasProvider := fun network => network == "ethereum",
    readSymbol := fun _ _ => .ok "USDC",
    readDecimals := fun _ _ => .error "decimals read failed",
    readTotalSupply := fun _ _ => .ok 1000000 }

/-- A cached token record for the witness. -/
def tokC5 : TokenInfo :=
  { address := "0xA", symbol := "USDC", decimals := 6, totalSupply := "1000000" }

/-- A one-entry cache holding `tokC5` under its key. -/
def cacheC5 : TokenCache := [(cacheKey "ethereum" "0xA", tokC5)]

end Blockchain

namespace Graph

/-- JavaScript `padStart` with pad character `0`: left-pads the digit
string of the fractional part to the token's decimal count. -/
def padStart (s : String) (len : Nat) : String :=
  String.mk (List.replicate (len - s.length) '0') ++ s

/-- The decimal string assembled by `GraphService.formatTokenAmount`
before its final `parseFloat`: `value / divisor`, a dot, then
`value % divisor` left-padded to `decimals` digits, with `divisor`
`10 ^ decimals`; `0` for an empty or zero input amount. -/
def formatTokenAmountStr (amount : Nat) (decimals : Nat) : String :=
  if amount = 0 then "0"
  else
    Nat.repr (amount / 10 ^ decimals) ++ "."
      ++ padStart (Nat.repr (amount % 10 ^ decimals)) decimals

/-- The exact rational value denoted by that decimal string: the integer
quotient plus the remainder digits over `10 ^ decimals`. -/
def formatTokenAmountVal (amount : Nat) (decimals : Nat) : ℚ :=
  if amount = 0 then 0
  else ((amount / 10 ^ decimals : Nat) : ℚ)
    + ((amount % 10 ^ decimals : Nat) : ℚ) / 10 ^ decimals

/-- A value representable by a binary floating-point number of any
precision (a dyadic rational). Every JavaScript `number` — hence every
`parseFloat` result — is of this form (or a NaN/infinity, which equals no
rational at all). -/
def IsBinaryFloat (q : ℚ) : Prop := ∃ m e : ℤ, q = (m : ℚ) * 2 ^ e

end Graph

namespace ClientBinding

open PortfolioTracker

/-- Errors raised locally by the ethers layer before any transaction is
sent: a non-numeric string where a BigNumber is expected, a fractional
component finer than 18 decimals in `parseEther`, a value outside the
`uint256` range at ABI encoding, and a non-string where the ABI expects a
string. -/
inductive EthersError where
  | invalidBigNumberString (value : String)
  | fractionalComponentExceedsDecimals
  | valueOutOfBounds
  | invalidStringValue
deriving Repr, DecidableEq

/-- A JavaScript value handed to a contract method. -/
inductive JsArg where
  | str (s : String)
  | bignum (n : Int)
deriving Repr, DecidableEq

/-- `ethers.utils.parseEther`: scales the decimal number denoted by the
input string by `10 ^ 18`; fails when the scaled value still has a
fractional part (the input was finer than 18 decimals). -/
def parseEther (x : ℚ) : Except EthersError Int :=
  if (x * 10 ^ 18).den = 1 then .ok (x * 10 ^ 18).num
  else .error .fractionalComponentExceedsDecimals

/-- Coercion of a JavaScript value to a BigNumber as done by the ABI
coder: numbers pass through, non-empty decimal digit strings are parsed,
any other string is rejected as an invalid BigNumber string. -/
def toBigNumber : JsArg → Except EthersError Int
  | .bignum n => .ok n
  | .str s =>
    if s.data ≠ [] ∧ s.data.all (fun c => c.isDigit) then
      .ok (s.data.foldl (fun acc c => 10 * acc + ((c.toNat : Int) - 48)) 0)
    else .error (.invalidBigNumberString s)

/-- ABI encoding of a `uint256` argument: coerce to a BigNumber, then
check the `[0, 2^256)` range. -/
def encodeUint256 (v : JsArg) : Except EthersError Nat :=
  match toBigNumber v with
  | .error e => .error e
  | .ok n => if 0 ≤ n ∧ n < 2 ^ 256 then .ok n.toNat else .error .valueOutOfBounds

/-- ABI encoding of a `string` argument: only strings are accepted. -/
def encodeString : JsArg → Except EthersError String
  | .str s => .ok s
  | .bignum _ => .error .invalidStringValue

/-- `ContractService.addPosition` from `src/services/contractService.ts`:
converts `amount` and `entryPrice` with `parseEther` and then invokes
`this.contract.addPosition(token, protocol, amountInWei, entryPriceInWei)`.
The contract declares
`addPosition(address _token, uint256 _amount, uint256 _entryPrice, string _protocol)`,
so the ABI coder receives `protocol` in the `uint256 _amount` slot,
`amountInWei` in the `uint256 _entryPrice` slot and `entryPriceInWei` in
the `string _protocol` slot, and validates them against those types in
declaration order. Only if every argument encodes does the transaction
reach the contract. -/
def serviceAddPosition (s : TrackerState) (sender : Addr) (token : Addr) (protocol : String)
    (amount entryPrice : ℚ) (timestamp : Nat) :
    Except EthersError (Except ContractError (TrackerState × Nat)) :=
  match parseEther amount with
  | .error e => .error e
  | .ok amountInWei =>
    match parseEther entryPrice with
    | .error e => .error e
    | .ok entryPriceInWei =>
      match encodeUint256 (.str protocol) with
      | .error e => .error e
      | .ok amountArg =>
        match encodeUint256 (.bignum amountInWei) with
        | .error e => .error e
        | .ok entryPriceArg =>
          match encodeString (.bignum entryPriceInWei) with
          | .error e => .error e
          | .ok protocolArg =>
            .ok (addPosition s sender token amountArg entryPriceArg protocolArg timestamp)

/-- The same client call with the four arguments arranged in the order the
contract declares: `addPosition(token, amountInWei, entryPriceInWei,
protocol)`. This is the call the service documentation and the contract
interface describe. -/
def serviceAddPositionContractOrder (s : TrackerState) (sender : Addr) (token : Addr)
    (protocol : String) (amount entryPrice : ℚ) (timestamp : Nat) :
    Except EthersError (Except ContractError (TrackerState × Nat)) :=
  match parseEther amount with
  | .error e => .error e
  | .ok amountInWei =>
    match parseEther entryPrice with
    | .error e => .error e
    | .ok entryPriceInWei =>
      match encodeUint256 (.bignum amountInWei) with
      | .error e => .error e
      | .ok amountArg =>
        match encodeUint256 (.bignum entryPriceInWei) with
        | .error e => .error e
        | .ok entryPriceArg =>
          match encodeString (.str protocol) with
          | .error e => .error e
          | .ok protocolArg =>
            .ok (addPosition s sender token amountArg entryPriceArg protocolArg timestamp)

/-- Transaction-level effect of `ContractService.addPosition`: storage
changes only when both the local encoding and the contract call
succeed. -/
def execServiceAdd (s : TrackerState) (sender : Addr) (token : Addr) (protocol : String)
    (amount entryPrice : ℚ) (timestamp : Nat) : TrackerState :=
  match serviceAddPosition s sender token protocol amount entryPrice timestamp with
  | .ok (.ok r) => r.1
  | _ => s

end ClientBinding

namespace PortfolioHook

/-- The fields of the portfolio hook's `Position` interface used by the
snapshot computation; `risk` is optional. -/
structure ClientPosition where
  protocol : String
  asset : String
  value : ℚ
  chainName : String
  risk : Option ℚ
deriving Repr, DecidableEq

/-- `calculateRiskScore` from the portfolio hook: `0` for an empty list,
otherwise the reduce-sum of `pos.risk || 0` divided by the number of
positions. -/
def calculateRiskScore (positions : List ClientPosition) : ℚ :=
  if positions.length = 0 then 0
  else (positions.foldl (fun sum pos => sum + pos.risk.getD 0) 0) / positions.length

/-- The single position of the end-to-end scenario: an Aave ledger
position valued from its own fields, with no adapter match and no risk
figure. -/
def scenarioPosition : ClientPosition :=
  { protocol := "Aave", asset := "T", value := 2000, chainName := "ethereum", risk := none }

end PortfolioHook

namespace PortfolioTracker

theorem execOps_append (s : TrackerState) (l1 l2 : List Op) :
    execOps s (l1 ++ l2) = execOps (execOps s l1) l2 :=
  List.foldl_append execOp s l1 l2

/-- Decomposition of a stored array at an in-range index. -/
theorem list_decomp (l : List Position) (i : Nat) (hi : i < l.length) :
    l = l.take i ++ l.getD i defaultPosition :: l.drop (i + 1) := by
  conv_lhs => rw [← List.take_append_drop i l]
  rw [List.drop_eq_getElem_cons hi, List.getD_eq_getElem l defaultPosition hi]

/-- Overwriting one slot changes the number of active positions by the
difference of the two activity flags. -/
theorem filter_length_set (l : List Position) (i : Nat) (q : Position) (hi : i < l.length) :
    ((l.set i q).filter (fun p => p.active)).length
      + (if (l.getD i defaultPosition).active then 1 else 0)
    = (l.filter (fun p => p.active)).length + (if q.active then 1 else 0) := by
  have hset : l.set i q = l.take i ++ q :: l.drop (i + 1) := List.set_eq_take_cons_drop q hi
  have hd := list_decomp l i hi
  set a := l.getD i defaultPosition with ha2
  rw [hset]
  conv_rhs => rw [hd]
  simp only [List.filter_append, List.filter_cons, List.length_append, List.length_cons]
  by_cases hq : q.active = true <;> by_cases ha : a.active = true <;>
    simp [hq, ha] <;> omega

theorem execOp_add (s : TrackerState) (sender token : Addr) (amount entryPrice : Nat)
    (protocol : String) (timestamp : Nat)
    (hc : s.positionCount sender + 1 ≤ UINT256_MAX) :
    execOp s (.add sender token amount entryPrice protocol timestamp)
      = { userPositions := Function.update s.userPositions sender
            (s.userPositions sender ++
              [{ token := token, amount := amount, entryPrice := entryPrice,
                 timestamp := timestamp, protocol := protocol, active := true }]),
          positionCount := Function.update s.positionCount sender
            (s.positionCount sender + 1) } := by
  simp [execOp, addPosition, hc]

theorem execOp_add_overflow (s : TrackerState) (sender token : Addr) (amount entryPrice : Nat)
    (protocol : String) (timestamp : Nat)
    (hc : ¬ s.positionCount sender + 1 ≤ UINT256_MAX) :
    execOp s (.add sender token amount entryPrice protocol timestamp) = s := by
  simp [execOp, addPosition, hc]

theorem execOp_remove (s : TrackerState) (sender : Addr) (pid : Nat)
    (h1 : pid < (s.userPositions sender).length)
    (h2 : ((s.userPositions sender).getD pid defaultPosition).active = true)
    (h3 : s.positionCount sender ≠ 0) :
    execOp s (.remove sender pid)
      = { userPositions := Function.update s.userPositions sender
            ((s.userPositions sender).set pid
              { (s.userPositions sender).getD pid defaultPosition with active := false }),
          positionCount := Function.update s.positionCount sender
            (s.positionCount sender - 1) } := by
  rw [List.getD_eq_getElem _ defaultPosition h1] at h2
  simp [execOp, removePosition, validPositionId, h1, h2, h3]

theorem execOp_remove_out_of_range (s : TrackerState) (sender : Addr) (pid : Nat)
    (h1 : ¬ pid < (s.userPositions sender).length) :
    execOp s (.remove sender pid) = s := by
  simp [execOp, removePosition, validPositionId, h1]

theorem execOp_remove_inactive (s : TrackerState) (sender : Addr) (pid : Nat)
    (h2 : ¬ ((s.userPositions sender).getD pid defaultPosition).active = true) :
    execOp s (.remove sender pid) = s := by
  by_cases h1 : pid < (s.userPositions sender).length
  · rw [List.getD_eq_getElem _ defaultPosition h1] at h2
    simp [execOp, removePosition, validPositionId, h1, h2]
  · simp [execOp, removePosition, validPositionId, h1]

theorem execOp_remove_zero_count (s : TrackerState) (sender : Addr) (pid : Nat)
    (h3 : s.positionCount sender = 0) :
    execOp s (.remove sender pid) = s := by
  by_cases h1 : pid < (s.userPositions sender).length
  · by_cases h2 : ((s.userPositions sender).getD pid defaultPosition).active = true <;>
      rw [List.getD_eq_getElem _ defaultPosition h1] at h2 <;>
        simp [execOp, removePosition, validPositionId, h1, h2, h3]
  · simp [execOp, removePosition, validPositionId, h1]

theorem execOp_update (s : TrackerState) (sender : Addr) (pid na ne : Nat)
    (h1 : pid < (s.userPositions sender).length)
    (h2 : ((s.userPositions sender).getD pid defaultPosition).active = true) :
    execOp s (.update sender pid na ne)
      = { s with userPositions :=
                   Function.update s.userPositions sender
                     ((s.userPositions sender).set pid
                       { (s.userPositions sender).getD pid defaultPosition with
                           amount := na, entryPrice := ne }) } := by
  rw [List.getD_eq_getElem _ defaultPosition h1] at h2
  simp [execOp, updatePosition, validPositionId, h1, h2]

theorem execOp_update_out_of_range (s : TrackerState) (sender : Addr) (pid na ne : Nat)
    (h1 : ¬ pid < (s.userPositions sender).length) :
    execOp s (.update sender pid na ne) = s := by
  simp [execOp, updatePosition, validPositionId, h1]

theorem execOp_update_inactive (s : TrackerState) (sender : Addr) (pid na ne : Nat)
    (h2 : ¬ ((s.userPositions sender).getD pid defaultPosition).active = true) :
    execOp s (.update sender pid na ne) = s := by
  by_cases h1 : pid < (s.userPositions sender).length
  · rw [List.getD_eq_getElem _ defaultPosition h1] at h2
    simp [execOp, updatePosition, validPositionId, h1, h2]
  · simp [execOp, updatePosition, validPositionId, h1]

end PortfolioTracker

namespace PortfolioTracker

/-- Every ledger transaction preserves the counter invariant. -/
theorem inv_execOp (s : TrackerState) (op : Op) (h : Inv s) : Inv (execOp s op) := by
  cases op with
  | add sender token amount entryPrice protocol timestamp =>
    by_cases hc : s.positionCount sender + 1 ≤ UINT256_MAX
    · rw [execOp_add s sender token amount entryPrice protocol timestamp hc]
      intro u
      by_cases hu : u = sender
      · subst hu
        simp only [activeList, Function.update_same]
        rw [List.filter_append]
        simp [h u, activeList]
      · simp only [activeList, Function.update_noteq hu]
        exact h u
    · rw [execOp_add_overflow s sender token amount entryPrice protocol timestamp hc]
      exact h
  | remove sender pid =>
    by_cases h1 : pid < (s.userPositions sender).length
    · by_cases h2 : ((s.userPositions sender).getD pid defaultPosition).active = true
      · by_cases h3 : s.positionCount sender = 0
        · rw [execOp_remove_zero_count s sender pid h3]; exact h
        · rw [execOp_remove s sender pid h1 h2 h3]
          intro u
          by_cases hu : u = sender
          · subst hu
            simp only [activeList, Function.update_same]
            have key := filter_length_set (s.userPositions u) pid
              { (s.userPositions u).getD pid defaultPosition with active := false } h1
            have hcnt := h u
            simp only [activeList] at hcnt
            simp only [List.getD_eq_getElem?_getD] at h2
            simp [h2] at key ⊢
            omega
          · simp only [activeList, Function.update_noteq hu]
            exact h u
      · rw [execOp_remove_inactive s sender pid h2]; exact h
    · rw [execOp_remove_out_of_range s sender pid h1]; exact h
  | update sender pid na ne =>
    by_cases h1 : pid < (s.userPositions sender).length
    · by_cases h2 : ((s.userPositions sender).getD pid defaultPosition).active = true
      · rw [execOp_update s sender pid na ne h1 h2]
        intro u
        by_cases hu : u = sender
        · subst hu
          simp only [activeList, Function.update_same]
          have key := filter_length_set (s.userPositions u) pid
            { (s.userPositions u).getD pid defaultPosition with
                amount := na, entryPrice := ne } h1
          have hcnt := h u
          simp only [activeList] at hcnt
          simp only [List.getD_eq_getElem?_getD] at h2
          simp [h2] at key ⊢
          omega
        · simp only [activeList, Function.update_noteq hu]
          exact h u
      · rw [execOp_update_inactive s sender pid na ne h2]; exact h
    · rw [execOp_update_out_of_range s sender pid na ne h1]; exact h

/-- The counter invariant holds along every transaction sequence. -/
theorem inv_execOps (s : TrackerState) (ops : List Op) (h : Inv s) : Inv (execOps s ops) := by
  induction ops generalizing s with
  | nil => exact h
  | cons op rest ih => exact ih (execOp s op) (inv_execOp s op h)

/-- The freshly deployed contract satisfies the counter invariant. -/
theorem inv_initState : Inv initState := by
  intro u
  rfl

/-- The fill loop, run over a result array with exactly as many free slots
as there are active source positions, produces exactly the active source
positions after the already-filled prefix. -/
theorem fillActive_eq (src : List Position) : ∀ pre : List Position,
    fillActive (pre ++ List.replicate (src.filter (fun p => p.active)).length defaultPosition)
      src pre.length = .ok (pre ++ src.filter (fun p => p.active)) := by
  induction src with
  | nil => intro pre; simp [fillActive]
  | cons p rest ih =>
    intro pre
    by_cases hp : p.active = true
    · rw [List.filter_cons_of_pos (by simpa using hp)]
      simp only [List.length_cons, fillActive]
      have harr : pre.length
          < (pre ++ List.replicate ((rest.filter (fun q => q.active)).length + 1)
              defaultPosition).length := by
        simp only [List.length_append, List.length_replicate]
        omega
      rw [if_pos hp, if_pos harr]
      have hsets : (pre ++ List.replicate ((rest.filter (fun q => q.active)).length + 1)
            defaultPosition).set pre.length p
          = (pre ++ [p]) ++ List.replicate (rest.filter (fun q => q.active)).length
              defaultPosition := by
        simp [List.set_append, List.replicate_succ, List.append_assoc]
      rw [hsets]
      have hstep := ih (pre ++ [p])
      simp only [List.length_append, List.length_cons, List.length_nil] at hstep
      simpa [List.append_assoc] using hstep
    · rw [List.filter_cons_of_neg (by simpa using hp)]
      simp only [fillActive, hp, if_false]
      simpa [hp] using ih pre

/-- Under the counter invariant `getAllPositions` succeeds and returns
exactly the active positions, in storage order. -/
theorem getAllPositions_eq_activeList (s : TrackerState) (u : Addr) (h : Inv s) :
    getAllPositions s u = .ok (activeList s u) := by
  have hfill := fillActive_eq (s.userPositions u) []
  simp only [List.nil_append, List.length_nil] at hfill
  rw [getAllPositions, h u]
  simpa [activeList] using hfill

end PortfolioTracker

namespace PortfolioTracker

/-- Once a stored position is inactive, no single transaction reactivates
it: `addPosition` only appends, `removePosition` only clears the flag, and
`updatePosition` requires the flag to be set. -/
theorem activeFlagAt_false_execOp (s : TrackerState) (u : Addr) (i : Nat) (op : Op)
    (h : activeFlagAt s u i = some false) :
    activeFlagAt (execOp s op) u i = some false := by
  obtain ⟨p, hp, hpa⟩ : ∃ p, (s.userPositions u)[i]? = some p ∧ p.active = false := by
    unfold activeFlagAt at h
    rcases hq : (s.userPositions u)[i]? with _ | p
    · rw [hq] at h; simp at h
    · rw [hq] at h; simp at h; exact ⟨p, rfl, h⟩
  have hi : i < (s.userPositions u).length := (List.getElem?_eq_some_iff.mp hp).1
  cases op with
  | add sender token amount entryPrice protocol timestamp =>
    by_cases hc : s.positionCount sender + 1 ≤ UINT256_MAX
    · rw [execOp_add s sender token amount entryPrice protocol timestamp hc]
      by_cases hu : u = sender
      · subst hu
        unfold activeFlagAt
        simp only [Function.update_same]
        rw [List.getElem?_append_left hi, hp]
        simpa using hpa
      · unfold activeFlagAt
        simp only [Function.update_noteq hu]
        rw [hp]; simpa using hpa
    · rw [execOp_add_overflow s sender token amount entryPrice protocol timestamp hc]
      exact h
  | remove sender pid =>
    by_cases h1 : pid < (s.userPositions sender).length
    · by_cases h2 : ((s.userPositions sender).getD pid defaultPosition).active = true
      · by_cases h3 : s.positionCount sender = 0
        · rw [execOp_remove_zero_count s sender pid h3]; exact h
        · rw [execOp_remove s sender pid h1 h2 h3]
          by_cases hu : u = sender
          · subst hu
            unfold activeFlagAt
            simp only [Function.update_same]
            by_cases hpi : pid = i
            · simp [List.getElem?_set, hpi, hi]
            · simp [List.getElem?_set, hpi, hp, hpa]
          · unfold activeFlagAt
            simp only [Function.update_noteq hu]
            rw [hp]; simpa using hpa
      · rw [execOp_remove_inactive s sender pid h2]; exact h
    · rw [execOp_remove_out_of_range s sender pid h1]; exact h
  | update sender pid na ne =>
    by_cases h1 : pid < (s.userPositions sender).length
    · by_cases h2 : ((s.userPositions sender).getD pid defaultPosition).active = true
      · rw [execOp_update s sender pid na ne h1 h2]
        by_cases hu : u = sender
        · subst hu
          by_cases hpi : pid = i
          · exfalso
            rw [List.getD_eq_getElem?_getD, hpi, hp] at h2
            simp [hpa] at h2
          · unfold activeFlagAt
            simp only [Function.update_same]
            simp [List.getElem?_set, hpi, hp, hpa]
        · unfold activeFlagAt
          simp only [Function.update_noteq hu]
          rw [hp]; simpa using hpa
      · rw [execOp_update_inactive s sender pid na ne h2]; exact h
    · rw [execOp_update_out_of_range s sender pid na ne h1]; exact h

/-- Inactivity is preserved by every transaction sequence. -/
theorem activeFlagAt_false_execOps (s : TrackerState) (u : Addr) (i : Nat) (ops : List Op)
    (h : activeFlagAt s u i = some false) :
    activeFlagAt (execOps s ops) u i = some false := by
  induction ops generalizing s with
  | nil => exact h
  | cons op rest ih => exact ih (execOp s op) (activeFlagAt_false_execOp s u i op h)

/-- C1: after any sequence of ledger transactions from deployment,
`getPositionCount(owner)` equals the number of the owner's positions with
`active = true`, and `getAllPositions(owner)` succeeds and returns a list
of exactly that length. -/
theorem claim_C1_position_count (ops : List Op) (owner : Addr) :
    getPositionCount (execOps initState ops) owner
        = (activeList (execOps initState ops) owner).length
    ∧ getAllPositions (execOps initState ops) owner
        = .ok (activeList (execOps initState ops) owner)
    ∧ ∃ l, getAllPositions (execOps initState ops) owner = .ok l
        ∧ l.length = getPositionCount (execOps initState ops) owner := by
  have hInv := inv_execOps initState ops inv_initState
  refine ⟨hInv owner, getAllPositions_eq_activeList _ owner hInv, ?_⟩
  exact ⟨activeList (execOps initState ops) owner,
    getAllPositions_eq_activeList _ owner hInv, (hInv owner).symm⟩

/-- C3: after any sequence of ledger transactions from deployment,
`getAllPositions(owner)` returns exactly the owner's `active = true`
positions, packed contiguously, as a sublist (hence in original append
order) of the owner's stored array. -/
theorem claim_C3_getAllPositions_active_order (ops : List Op) (owner : Addr) :
    getAllPositions (execOps initState ops) owner
      = .ok (((execOps initState ops).userPositions owner).filter (fun p => p.active))
    ∧ (((execOps initState ops).userPositions owner).filter (fun p => p.active)).Sublist
        ((execOps initState ops).userPositions owner) := by
  have hInv := inv_execOps initState ops inv_initState
  exact ⟨getAllPositions_eq_activeList _ owner hInv, List.filter_sublist _⟩

/-- C2: once a position of an owner is stored inactive, it stays inactive
under every further transaction sequence, and `getAllPositions` is then
assembled exclusively from the entries before and after that ledger index
(the soft-deleted position is never included again). -/
theorem claim_C2_soft_delete_terminal (pre post : List Op) (owner : Addr) (i : Nat)
    (h : activeFlagAt (execOps initState pre) owner i = some false) :
    activeFlagAt (execOps initState (pre ++ post)) owner i = some false
    ∧ getAllPositions (execOps initState (pre ++ post)) owner
        = .ok ((((execOps initState (pre ++ post)).userPositions owner).take i).filter
                 (fun p => p.active)
            ++ (((execOps initState (pre ++ post)).userPositions owner).drop (i + 1)).filter
                 (fun p => p.active)) := by
  have hflag : activeFlagAt (execOps initState (pre ++ post)) owner i = some false := by
    rw [execOps_append]
    exact activeFlagAt_false_execOps _ owner i post h
  refine ⟨hflag, ?_⟩
  have hInv := inv_execOps initState (pre ++ post) inv_initState
  obtain ⟨p, hp, hpa⟩ : ∃ p,
      ((execOps initState (pre ++ post)).userPositions owner)[i]? = some p
        ∧ p.active = false := by
    unfold activeFlagAt at hflag
    rcases hq : ((execOps initState (pre ++ post)).userPositions owner)[i]? with _ | p
    · rw [hq] at hflag; simp at hflag
    · rw [hq] at hflag; simp at hflag; exact ⟨p, rfl, hflag⟩
  have hi : i < ((execOps initState (pre ++ post)).userPositions owner).length :=
    (List.getElem?_eq_some_iff.mp hp).1
  have hgd : ((execOps initState (pre ++ post)).userPositions owner).getD i defaultPosition
      = p := by
    rw [List.getD_eq_getElem?_getD, hp]; rfl
  rw [getAllPositions_eq_activeList _ owner hInv]
  simp only [activeList]
  conv_lhs => rw [list_decomp ((execOps initState (pre ++ post)).userPositions owner) i hi]
  rw [List.filter_append, List.filter_cons_of_neg (by simp [hp, hpa])]

/-- Concrete run for C2: owner 7 adds a position, soft-deletes it, then
attempts an update and adds a fresh position and deletes that one too; the
original position stays inactive and is absent from `getAllPositions`. -/
theorem claim_C2_witness :
    activeFlagAt (execOps initState
        ([.add 7 1 100 200 "Aave" 0, .remove 7 0]
          ++ [.update 7 0 5 6, .add 7 2 50 60 "Compound" 1, .remove 7 1])) 7 0 = some false
    ∧ getAllPositions (execOps initState
        ([.add 7 1 100 200 "Aave" 0, .remove 7 0]
          ++ [.update 7 0 5 6, .add 7 2 50 60 "Compound" 1, .remove 7 1])) 7
        = .ok ((((execOps initState
            ([.add 7 1 100 200 "Aave" 0, .remove 7 0]
              ++ [.update 7 0 5 6, .add 7 2 50 60 "Compound" 1, .remove 7 1])).userPositions
                7).take 0).filter (fun p => p.active)
            ++ (((execOps initState
            ([.add 7 1 100 200 "Aave" 0, .remove 7 0]
              ++ [.update 7 0 5 6, .add 7 2 50 60 "Compound" 1, .remove 7 1])).userPositions
                7).drop (0 + 1)).filter (fun p => p.active)) :=
  claim_C2_soft_delete_terminal [.add 7 1 100 200 "Aave" 0, .remove 7 0]
    [.update 7 0 5 6, .add 7 2 50 60 "Compound" 1, .remove 7 1] 7 0 (by decide)

end PortfolioTracker

namespace PortfolioTracker

/-- C7: `removePosition` fails with `InvalidPositionId` when the index is
at or beyond the owner's total appended count, fails with
`PositionInactive` when the target is already inactive, leaves storage
unchanged on any failure, and on success only clears the `active` flag of
the target (amount and entryPrice retained) and decrements the counter. -/
theorem claim_C7_removePosition (s : TrackerState) (sender : Addr) (pid : Nat) :
    ((s.userPositions sender).length ≤ pid →
        removePosition s sender pid = .error .invalidPositionId)
    ∧ (∀ p, (s.userPositions sender)[pid]? = some p → p.active = false →
        removePosition s sender pid = .error .positionInactive)
    ∧ (∀ e, removePosition s sender pid = .error e → execOp s (.remove sender pid) = s)
    ∧ (∀ p, (s.userPositions sender)[pid]? = some p → p.active = true →
        s.positionCount sender ≠ 0 →
        removePosition s sender pid
          = .ok { userPositions := Function.update s.userPositions sender
                    ((s.userPositions sender).set pid { p with active := false }),
                  positionCount := Function.update s.positionCount sender
                    (s.positionCount sender - 1) }) := by
  refine ⟨?_, ?_, ?_, ?_⟩
  · intro hge
    simp [removePosition, validPositionId, Nat.not_lt.mpr hge]
  · intro p hp hpa
    have hlt : pid < (s.userPositions sender).length := (List.getElem?_eq_some_iff.mp hp).1
    have hgd : (s.userPositions sender)[pid] = p := by
      have h0 := List.getElem?_eq_getElem hlt
      rw [hp] at h0
      exact (Option.some_inj.mp h0).symm
    simp [removePosition, validPositionId, hlt, hgd, hpa]
  · intro e he
    simp [execOp, he]
  · intro p hp hpa hcnt
    have hlt : pid < (s.userPositions sender).length := (List.getElem?_eq_some_iff.mp hp).1
    have hgd : (s.userPositions sender)[pid] = p := by
      have h0 := List.getElem?_eq_getElem hlt
      rw [hp] at h0
      exact (Option.some_inj.mp h0).symm
    simp [removePosition, validPositionId, hlt, hgd, hpa, hcnt]

/-- Concrete run for C7: with exactly one active position, index 1 is
rejected as invalid, a second removal of index 0 is rejected as inactive,
a rejected call leaves the state unchanged, a successful removal only
clears the flag and decrements the counter, and afterwards the count is 0
and `getAllPositions` is empty. -/
theorem claim_C7_witness :
    removePosition sC7 7 1 = .error .invalidPositionId
    ∧ removePosition (execOp sC7 (.remove 7 0)) 7 0 = .error .positionInactive
    ∧ execOp sC7 (.remove 7 9) = sC7
    ∧ removePosition sC7 7 0
        = .ok { userPositions := Function.update sC7.userPositions 7
                  ((sC7.userPositions 7).set 0 { pC7 with active := false }),
                positionCount := Function.update sC7.positionCount 7
                  (sC7.positionCount 7 - 1) }
    ∧ getPositionCount (execOp sC7 (.remove 7 0)) 7 = 0
    ∧ getAllPositions (execOp sC7 (.remove 7 0)) 7 = .ok [] := by
  refine ⟨(claim_C7_removePosition sC7 7 1).1 (by decide),
    (claim_C7_removePosition (execOp sC7 (.remove 7 0)) 7 0).2.1
      { pC7 with active := false } (by decide) (by decide),
    (claim_C7_removePosition sC7 7 9).2.2.1 .invalidPositionId
      ((claim_C7_removePosition sC7 7 9).1 (by decide)),
    (claim_C7_removePosition sC7 7 0).2.2.2 pC7 (by decide) (by decide) (by decide),
    by decide, by decide⟩

/-- C9: a successful `updatePosition` stores, at the target index, the old
record with only `amount` and `entryPrice` replaced (token, timestamp,
protocol label and active flag retained), leaves every other index of the
sender and every other owner's array untouched, and leaves all position
counters untouched. -/
theorem claim_C9_updatePosition_frame (s : TrackerState) (sender : Addr) (pid na ne : Nat)
    (p : Position) (hp : (s.userPositions sender)[pid]? = some p) (hact : p.active = true) :
    ∃ s2, updatePosition s sender pid na ne = .ok s2
      ∧ (s2.userPositions sender)[pid]? = some { p with amount := na, entryPrice := ne }
      ∧ (∀ j, j ≠ pid → (s2.userPositions sender)[j]? = (s.userPositions sender)[j]?)
      ∧ (∀ u, u ≠ sender → s2.userPositions u = s.userPositions u)
      ∧ s2.positionCount = s.positionCount := by
  have hlt : pid < (s.userPositions sender).length := (List.getElem?_eq_some_iff.mp hp).1
  have hgd : (s.userPositions sender)[pid] = p := by
    have h0 := List.getElem?_eq_getElem hlt
    rw [hp] at h0
    exact (Option.some_inj.mp h0).symm
  refine ⟨{ s with
      userPositions := Function.update s.userPositions sender
        ((s.userPositions sender).set pid { p with amount := na, entryPrice := ne }) },
    ?_, ?_, ?_, ?_, rfl⟩
  · simp [updatePosition, validPositionId, hlt, hgd, hact]
  · simp [Function.update_same, List.getElem?_set, hlt]
  · intro j hj
    simp [Function.update_same, List.getElem?_set_ne (fun hcontra => hj hcontra.symm)]
  · intro u hu
    simp [Function.update_noteq hu]

/-- Concrete run for C9: owner 3 holds two positions and updates the
first; only its amount and entryPrice change, index 1 and other owners are
untouched, and all counters are unchanged. -/
theorem claim_C9_witness :
    ∃ s2, updatePosition sC9 3 0 77 88 = .ok s2
      ∧ (s2.userPositions 3)[0]? = some { pC9 with amount := 77, entryPrice := 88 }
      ∧ (∀ j, j ≠ 0 → (s2.userPositions 3)[j]? = (sC9.userPositions 3)[j]?)
      ∧ (∀ u, u ≠ 3 → s2.userPositions u = sC9.userPositions u)
      ∧ s2.positionCount = sC9.positionCount :=
  claim_C9_updatePosition_frame sC9 3 0 77 88 pC9 (by decide) (by decide)

/-- C10: `getPosition(user, index)` checks only the index range: it
returns the stored record for every index below the total appended count —
in particular also when the record is soft-deleted — and fails with
`InvalidPositionId` exactly when the index is at or beyond that count. -/
theorem claim_C10_getPosition (s : TrackerState) (user : Addr) (pid : Nat) :
    (∀ p, (s.userPositions user)[pid]? = some p → getPosition s user pid = .ok p)
    ∧ ((s.userPositions user).length ≤ pid →
        getPosition s user pid = .error .invalidPositionId) := by
  constructor
  · intro p hp
    have hlt : pid < (s.userPositions user).length := (List.getElem?_eq_some_iff.mp hp).1
    have hgd : (s.userPositions user)[pid] = p := by
      have h0 := List.getElem?_eq_getElem hlt
      rw [hp] at h0
      exact (Option.some_inj.mp h0).symm
    simp [getPosition, hlt, hgd]
  · intro hge
    simp [getPosition, Nat.not_lt.mpr hge]

/-- Concrete run for C10: after add and soft delete, the inactive record
is still readable at index 0, and index 1 is rejected. -/
theorem claim_C10_witness :
    getPosition sC10 9 0 = .ok pC10 ∧ pC10.active = false
    ∧ getPosition sC10 9 1 = .error .invalidPositionId :=
  ⟨(claim_C10_getPosition sC10 9 0).1 pC10 (by decide), by decide,
    (claim_C10_getPosition sC10 9 1).2 (by decide)⟩

end PortfolioTracker

namespace Blockchain

/-- C5: `getTokenInfo` returns a cached entry as-is (independently of the
chain environment, hence without re-fetching) and leaves the cache
unchanged; on a miss it fails with the provider-not-found error when the
network has no provider, fails with a token-read error when any of the
three reads rejects, and on every failure leaves the cache without any
new entry. -/
theorem claim_C5_getTokenInfo (env : ChainEnv) (cache : TokenCache) (a n : String) :
    (∀ t, cache.lookup (cacheKey n a) = some t →
        getTokenInfo env cache a n = (.ok t, cache)
        ∧ ∀ env2, getTokenInfo env2 cache a n = getTokenInfo env cache a n)
    ∧ (cache.lookup (cacheKey n a) = none → env.hasProvider n = false →
        getTokenInfo env cache a n = (.error (.providerNotFound n), cache))
    ∧ (cache.lookup (cacheKey n a) = none → env.hasProvider n = true →
        ((∃ e, env.readSymbol n a = .error e) ∨ (∃ e, env.readDecimals n a = .error e)
          ∨ (∃ e, env.readTotalSupply n a = .error e)) →
        ∃ msg, getTokenInfo env cache a n = (.error (.tokenReadError msg), cache))
    ∧ (∀ err, (getTokenInfo env cache a n).1 = .error err →
        (getTokenInfo env cache a n).2 = cache) := by
  refine ⟨?_, ?_, ?_, ?_⟩
  · intro t ht
    constructor
    · simp [getTokenInfo, ht]
    · intro env2
      simp [getTokenInfo, ht]
  · intro h1 h2
    simp [getTokenInfo, h1, h2]
  · intro h1 h2 h3
    rcases hs : env.readSymbol n a with es | sv
    · exact ⟨es, by simp [getTokenInfo, h1, h2, hs]⟩
    · rcases hd : env.readDecimals n a with ed | dv
      · exact ⟨ed, by simp [getTokenInfo, h1, h2, hs, hd]⟩
      · rcases ht2 : env.readTotalSupply n a with et | tv
        · exact ⟨et, by simp [getTokenInfo, h1, h2, hs, hd, ht2]⟩
        · exfalso
          rcases h3 with ⟨e, he⟩ | ⟨e, he⟩ | ⟨e, he⟩
          · rw [hs] at he; exact absurd he (by simp)
          · rw [hd] at he; exact absurd he (by simp)
          · rw [ht2] at he; exact absurd he (by simp)
  · intro err herr
    rcases hl : cache.lookup (cacheKey n a) with _ | t
    · by_cases hprov : env.hasProvider n
      · rcases hs : env.readSymbol n a with es | sv
        · simp [getTokenInfo, hl, hprov, hs]
        · rcases hd : env.readDecimals n a with ed | dv
          · simp [getTokenInfo, hl, hprov, hs, hd]
          · rcases ht2 : env.readTotalSupply n a with et | tv
            · simp [getTokenInfo, hl, hprov, hs, hd, ht2]
            · rw [getTokenInfo] at herr
              rw [hl] at herr
              simp [hprov, hs, hd, ht2] at herr
      · simp [getTokenInfo, hl, hprov]
    · rw [getTokenInfo] at herr
      rw [hl] at herr
      simp at herr

/-- Concrete run for C5: a cached `(ethereum, 0xA)` entry is returned with
the cache unchanged; a miss on `polygon` (no provider) fails with
provider-not-found; a miss whose decimals read rejects fails with a
token-read error, leaving the empty cache empty in both failure cases. -/
theorem claim_C5_witness :
    getTokenInfo envC5 cacheC5 "0xA" "ethereum" = (.ok tokC5, cacheC5)
    ∧ getTokenInfo envC5 [] "0xA" "polygon" = (.error (.providerNotFound "polygon"), [])
    ∧ (∃ msg, getTokenInfo envC5bad [] "0xB" "ethereum"
        = (.error (.tokenReadError msg), [])) :=
  ⟨((claim_C5_getTokenInfo envC5 cacheC5 "0xA" "ethereum").1 tokC5 (by decide)).1,
    (claim_C5_getTokenInfo envC5 [] "0xA" "polygon").2.1 (by decide) (by decide),
    (claim_C5_getTokenInfo envC5bad [] "0xB" "ethereum").2.2.1 (by decide) (by decide)
      (.inr (.inl ⟨"decimals read failed", rfl⟩))⟩

end Blockchain

namespace Graph

/-- The integer quotient/remainder split of `formatTokenAmount` loses
nothing: the value denoted by the assembled string is exactly the input
over `10 ^ decimals`. -/
theorem formatTokenAmountVal_eq (amount decimals : Nat) :
    formatTokenAmountVal amount decimals = (amount : ℚ) / 10 ^ decimals := by
  rw [formatTokenAmountVal]
  split
  · rename_i h
    subst h
    simp
  · have hD : ((10 : ℚ) ^ decimals) ≠ 0 := by positivity
    have key : (10 : ℚ) ^ decimals * ((amount / 10 ^ decimals : Nat) : ℚ)
        + ((amount % 10 ^ decimals : Nat) : ℚ) = (amount : ℚ) := by
      exact_mod_cast Nat.div_add_mod amount (10 ^ decimals)
    field_simp
    linarith [key]

/-- C4 (amended): the adapter formatting performs exact integer division
and remainder formatting — for every balance and decimal count the
assembled decimal string denotes exactly `amount / 10 ^ decimals`, and the
integer `1234567890123456789` formats to the exact strings at decimals 18,
8, 6 and 0 — but the exactness holds of the string, not of the `number`
the function finally returns through `parseFloat`. -/
theorem claim_C4_formatTokenAmount_exact (amount decimals : Nat) :
    formatTokenAmountVal amount decimals = (amount : ℚ) / 10 ^ decimals
    ∧ formatTokenAmountStr 1234567890123456789 18 = "1.234567890123456789"
    ∧ formatTokenAmountStr 1234567890123456789 8 = "12345678901.23456789"
    ∧ formatTokenAmountStr 1234567890123456789 6 = "1234567890123.456789"
    ∧ formatTokenAmountStr 1234567890123456789 0 = "1234567890123456789.0" :=
  ⟨formatTokenAmountVal_eq amount decimals, by decide, by decide, by decide, by decide⟩

/-- C4 counterexample: the claim that formatting `1234567890123456789`
with 18 decimals yields exactly `1.234567890123456789` fails for the
function's return value: that value is produced by `parseFloat`, so it is
a binary float, and no binary float of any precision equals the exact
rational the string denotes (its reduced denominator is divisible by 5,
while every dyadic rational has a power of two as denominator). -/
theorem claim_C4_counterexample :
    ¬ IsBinaryFloat (formatTokenAmountVal 1234567890123456789 18) := by
  rw [formatTokenAmountVal_eq]
  rintro ⟨m, e, hme⟩
  have h5 : (5 : ℤ) ∣ 1234567890123456789 := by
    rcases e with k | k
    · rw [Int.ofNat_eq_natCast, zpow_natCast] at hme
      have h10 : ((10 : ℚ) ^ 18) ≠ 0 := by positivity
      rw [div_eq_iff h10] at hme
      have hz : (1234567890123456789 : ℤ) = m * 2 ^ k * 10 ^ 18 := by
        exact_mod_cast hme
      rw [hz]
      exact Dvd.dvd.mul_left (by norm_num) (m * 2 ^ k)
    · rw [zpow_negSucc] at hme
      have h10 : ((10 : ℚ) ^ 18) ≠ 0 := by positivity
      have h2 : ((2 : ℚ) ^ (k + 1)) ≠ 0 := by positivity
      rw [div_eq_iff h10, mul_comm (m : ℚ), inv_mul_eq_div, div_mul_eq_mul_div,
        eq_div_iff h2] at hme
      have hz : (1234567890123456789 : ℤ) * 2 ^ (k + 1) = m * 10 ^ 18 := by
        exact_mod_cast hme
      have hdvd : (5 : ℤ) ∣ (1234567890123456789 : ℤ) * 2 ^ (k + 1) := by
        rw [hz]
        exact Dvd.dvd.mul_left (by norm_num) m
      rcases Int.Prime.dvd_mul (by norm_num) hdvd with h | h
      · simpa using Int.natAbs_dvd.mp (Int.natCast_dvd_natCast.mpr h)
      · exfalso
        rw [Int.natAbs_pow] at h
        have : (5 : ℕ) ∣ 2 := Nat.Prime.dvd_of_dvd_pow (by norm_num) h
        norm_num at this
  exact absurd h5 (by decide)

end Graph

namespace ClientBinding

open PortfolioTracker

/-- C6 (code bug): for the oversized amount `10 ^ 60` (whose wei value
`10 ^ 78` exceeds the `uint256` range), `ContractService.addPosition`
fails and the position count is unchanged, but the failure is the
invalid-BigNumber rejection of the protocol label `Aave` — because the
service passes the arguments in the order `(token, protocol, amountInWei,
entryPriceInWei)` against the contract's
`(token, amount, entryPrice, protocol)` — not an overflow error. With the
arguments in the contract's declared order the same input fails with the
out-of-bounds (overflow-class) error the claim describes. Moreover the
call as written never succeeds for any input. -/
theorem claim_C6_addPosition_overflow_bug :
    serviceAddPosition initState 7 1 "Aave" ((10 : ℚ) ^ 60) 2000 0
      = .error (.invalidBigNumberString "Aave")
    ∧ getPositionCount (execServiceAdd initState 7 1 "Aave" ((10 : ℚ) ^ 60) 2000 0) 7
      = getPositionCount initState 7
    ∧ serviceAddPositionContractOrder initState 7 1 "Aave" ((10 : ℚ) ^ 60) 2000 0
      = .error .valueOutOfBounds
    ∧ (∀ s sender token protocol amount entryPrice timestamp,
        ∃ e, serviceAddPosition s sender token protocol amount entryPrice timestamp
          = .error e) := by
  have hA : parseEther ((10 : ℚ) ^ 60) = .ok ((10 : ℤ) ^ 78) := by
    have h1 : ((10 : ℚ) ^ 60 * 10 ^ 18) = (((10 : ℤ) ^ 78 : ℤ) : ℚ) := by push_cast; ring
    rw [parseEther, h1]
    simp [Rat.den_intCast, Rat.num_intCast]
  have hP : parseEther (2000 : ℚ) = .ok ((2 : ℤ) * 10 ^ 21) := by
    have h1 : ((2000 : ℚ) * 10 ^ 18) = (((2 * 10 ^ 21 : ℤ) : ℤ) : ℚ) := by push_cast; ring
    rw [parseEther, h1]
    simp [Rat.den_intCast, Rat.num_intCast]
  have hAave : encodeUint256 (.str "Aave") = .error (.invalidBigNumberString "Aave") := by
    decide
  have hOver : encodeUint256 (.bignum ((10 : ℤ) ^ 78)) = .error .valueOutOfBounds := by
    have hc : ¬ ((0 : ℤ) ≤ 10 ^ 78 ∧ (10 : ℤ) ^ 78 < 2 ^ 256) := by norm_num
    simp [encodeUint256, toBigNumber, hc]
  have e1 : serviceAddPosition initState 7 1 "Aave" ((10 : ℚ) ^ 60) 2000 0
      = .error (.invalidBigNumberString "Aave") := by
    simp [serviceAddPosition, hA, hP, hAave]
  refine ⟨e1, by simp [execServiceAdd, e1], by
    simp only [serviceAddPositionContractOrder, hA, hP, hOver], ?_⟩
  intro s sender token protocol amount entryPrice timestamp
  rcases h1 : parseEther amount with e | aw
  · exact ⟨e, by simp [serviceAddPosition, h1]⟩
  · rcases h2 : parseEther entryPrice with e | pw
    · exact ⟨e, by simp [serviceAddPosition, h1, h2]⟩
    · rcases h3 : encodeUint256 (.str protocol) with e | av
      · exact ⟨e, by simp [serviceAddPosition, h1, h2, h3]⟩
      · rcases h4 : encodeUint256 (.bignum aw) with e | pv
        · exact ⟨e, by simp [serviceAddPosition, h1, h2, h3, h4]⟩
        · exact ⟨.invalidStringValue,
            by simp [serviceAddPosition, h1, h2, h3, h4, encodeString]⟩

end ClientBinding

namespace PortfolioHook

/-- C8: `calculateRiskScore` is the arithmetic mean of `risk || 0` over
all positions — a position without a risk figure contributes 0 to the sum
but still counts in the divisor — and is 0 for an empty list; in
particular the end-to-end scenario portfolio (one position, no risk
figure) scores 0, and a half-risk position averaged with a riskless one
scores 1/4. -/
theorem claim_C8_riskScore_mean (positions : List ClientPosition) :
    calculateRiskScore positions
      = (if positions.length = 0 then 0
         else (positions.map (fun pos => pos.risk.getD 0)).sum / positions.length)
    ∧ calculateRiskScore [] = 0
    ∧ calculateRiskScore [scenarioPosition] = 0
    ∧ calculateRiskScore [{ scenarioPosition with risk := some (1 / 2) }, scenarioPosition]
      = 1 / 4 := by
  refine ⟨?_, by norm_num [calculateRiskScore],
    by norm_num [calculateRiskScore, scenarioPosition],
    by norm_num [calculateRiskScore, scenarioPosition]⟩
  rw [calculateRiskScore]
  split
  · rfl
  · congr 1
    rw [List.sum_eq_foldl, List.foldl_map]

end PortfolioHook
